import Mathlib

/-!
Verification of the CSS selector engine in `pynliner/soupselect.py`
(`select`, `is_nth_child`, and their helpers) against its specification.

The Python code is shallowly embedded: selector strings are `List Char`,
tree nodes form an inductive `Node`, and a node *reference* (a live
BeautifulSoup element, which carries identity and position) is a `Path`
of child indices from the document root.  Python `==` on elements is
structural (bs4 `Tag.__eq__` compares name, attributes and contents
recursively), so it is modelled by structural equality of the subtree
values found at the compared paths, while navigation (parent, siblings,
searches) is by path.  Fallible Python code (raises) is `Except`.
All scanners that the source writes as regexes are written out as
character-level functions; each carries a comment naming the regex.
-/

set_option autoImplicit false

namespace SoupSelect

/-- Selector text and attribute values, as in the Python `str` the source
manipulates. -/
abbrev Str := List Char

/-- Character class of `SELECTOR_TOKEN_PATTERN`'s first alternative:
`[_0-9a-zA-Z-#.:*()+]`. -/
def tokenChar (c : Char) : Bool :=
  c.isAlphanum || c == '_' || c == '-' || c == '#' || c == '.' ||
    c == ':' || c == '*' || c == '(' || c == ')' || c == '+'

/-- Character class of the combinator scanner `re.search('([>~+]+)$', selector)`. -/
def isOpChar (c : Char) : Bool :=
  c == '>' || c == '~' || c == '+'

/-- Character class `[a-zA-Z0-9_-]` used by the id and class extraction regexes. -/
def isIdChar (c : Char) : Bool :=
  c.isAlphanum || c == '_' || c == '-'

/-- Python `str.rstrip()` (strip trailing whitespace). -/
def rstrip (s : Str) : Str :=
  (s.reverse.dropWhile Char.isWhitespace).reverse

/-- Second alternative of `SELECTOR_TOKEN_PATTERN`: a trailing `\[[^\]]+\]`.
`body` is the selector without its final `]`; `re.search` takes the earliest
start position, i.e. the earliest `[` that is followed only by non-`]`
characters (at least one). Returns the whole matched token including `]`. -/
def bracketSearch : Str → Option Str
  | [] => none
  | c :: rest =>
      if c == '[' && !rest.isEmpty && !(rest.contains ']') then
        some ('[' :: (rest ++ [']']))
      else bracketSearch rest

/-- Embeds `SELECTOR_TOKEN_PATTERN.search(selector)`: the regex
`([_0-9a-zA-Z-#.:*()+]+|\[[^\]]+\])$` anchored at the end.  If the last
character is a token character the match is the maximal token-character
suffix; otherwise, if it is `]`, the bracketed alternative; otherwise no
match (`select` raises). -/
def searchToken (sel : Str) : Option Str :=
  match sel.getLast? with
  | none => none
  | some c =>
      if tokenChar c then some ((sel.reverse.takeWhile tokenChar).reverse)
      else if c == ']' then bracketSearch sel.dropLast
      else none

/-- Embeds `re.search('([>~+]+)$', selector)` followed by
`selector.rsplit(operator, 1)[0].rstrip()`; when there is no match the
operator defaults to `' '` and the selector is left unchanged. -/
def scanOperator (sel : Str) : Str × Str :=
  let ops := sel.reverse.takeWhile isOpChar
  if ops.isEmpty then ([' '], sel)
  else (ops.reverse, rstrip (sel.take (sel.length - ops.length)))

/-! ## The document tree -/

/-- A BeautifulSoup node: an element (`Tag`) with tag name, single-valued
attributes (including `id`), the multi-valued `class` attribute, and
children; a `NavigableString`; or a `Comment`.  The document root is
itself an element (bs4 uses the tag name `[document]`). -/
inductive Node where
  | elem (tag : Str) (attrs : List (Str × Str)) (classes : List Str) (children : List Node)
  | text (s : Str)
  | comment (s : Str)

/-- A node reference: the path of child indices from the document root.
Two references are the same live node iff their paths are equal; Python
`==` is the structural `nodeBEq` below instead. -/
abbrev Path := List Nat

mutual

/-- bs4 `Tag.__eq__` / `NavigableString.__eq__`: structural comparison of
name, attributes and contents, recursively.  (A `Tag` never equals a
string node, and comparisons against `None` are handled at `Option`
level by the callers.) -/
def nodeBEq : Node → Node → Bool
  | .elem t₁ a₁ c₁ ch₁, .elem t₂ a₂ c₂ ch₂ =>
      t₁ == t₂ && a₁ == a₂ && c₁ == c₂ && nodesBEq ch₁ ch₂
  | .text s₁, .text s₂ => s₁ == s₂
  | .comment s₁, .comment s₂ => s₁ == s₂
  | _, _ => false

/-- Structural comparison of children lists. -/
def nodesBEq : List Node → List Node → Bool
  | [], [] => true
  | a :: as, b :: bs => nodeBEq a b && nodesBEq as bs
  | _, _ => false

end

/-- Dereference a path in a tree. -/
def nodeAt (n : Node) : Path → Option Node
  | [] => some n
  | i :: p =>
      match n with
      | .elem _ _ _ ch =>
          match ch[i]? with
          | some c => nodeAt c p
          | none => none
      | _ => none

/-- Dereference with a dummy default (only reachable on invalid paths,
which the engine never produces). -/
def nodeAtD (root : Node) (p : Path) : Node :=
  (nodeAt root p).getD (.text [])

/-- Children of the node at `q` (empty for non-elements). -/
def childrenAt (root : Node) (q : Path) : List Node :=
  match nodeAt root q with
  | some (.elem _ _ _ ch) => ch
  | _ => []

/-- The sibling list a reference lives in, together with its index in it.
The root has no parent; like the BeautifulSoup object itself it is
treated as the only entry of a one-element sibling list. -/
def contextOf (root : Node) (p : Path) : List Node × Nat :=
  match p.reverse with
  | [] => ([root], 0)
  | i :: qrev => (childrenAt root qrev.reverse, i)

/-- Embeds `el.parent` (`None` for the root). -/
def parentOf (p : Path) : Option Path :=
  match p.reverse with
  | [] => none
  | _ :: qrev => some qrev.reverse

/-- Embeds `el.previousSibling` (`None` for a first child and for the root). -/
def prevSiblingOf (p : Path) : Option Path :=
  match p.reverse with
  | [] => none
  | 0 :: _ => none
  | (j+1) :: qrev => some (qrev.reverse ++ [j])

/-- Embeds `el.nextSibling` (`None` for a last child and for the root). -/
def nextSiblingOf (root : Node) (p : Path) : Option Path :=
  match p.reverse with
  | [] => none
  | i :: qrev =>
      if i + 1 < (childrenAt root qrev.reverse).length then
        some (qrev.reverse ++ [i + 1])
      else none

mutual

/-- Paths of the strict descendants of a node, in document (pre-)order:
bs4's `.descendants` traversal, which `find_all` filters. -/
def subtreePaths : Node → List Path
  | .elem _ _ _ ch => childPaths ch 0
  | _ => []

/-- Pre-order paths into the child list `ch`, whose first child has
index `i`. -/
def childPaths : List Node → Nat → List Path
  | [], _ => []
  | c :: rest, i => [i] :: ((subtreePaths c).map (i :: ·) ++ childPaths rest (i + 1))

end

/-- Proper prefixes of a path, longest (nearest ancestor) first: the
`.parents` chain a bs4 `find_parent` walks, ending at the root `[]`. -/
def prefixesDesc : Path → List Path
  | [] => []
  | x :: rest => (prefixesDesc rest).map (x :: ·) ++ [[]]

/-- Embeds `[i-1, i-2, ..., 0]`: the indices `find_previous_sibling` walks. -/
def prevIndicesDesc : Nat → List Nat
  | 0 => []
  | i + 1 => i :: prevIndicesDesc i

/-! ## Whitespace, content-node tests and the structural index
(`is_white_space`, `is_first_content_node`, `is_last_content_node`,
the index loop of `is_nth_child`) -/

/-- Embeds `is_white_space(el)`: a whitespace-only `NavigableString`, or a
`Comment`. -/
def isWhiteSpaceNode : Node → Bool
  | .text s => s.all Char.isWhitespace
  | .comment _ => true
  | .elem _ _ _ _ => false

/-- Embeds `is_first_content_node(el)` for `el = sibs[i]` (not `None`): `False`
for a non-whitespace node, else recurse on the previous sibling, which is
`None` (hence `True`) at index 0. -/
def isFirstContentIdx (sibs : List Node) : Nat → Bool
  | 0 => isWhiteSpaceNode (sibs.getD 0 (.text []))
  | i + 1 => isWhiteSpaceNode (sibs.getD (i + 1) (.text [])) && isFirstContentIdx sibs i

/-- Embeds `is_first_content_node(el)` on an optional reference into a sibling
list (`none` is Python `None`). -/
def isFirstContent (sibs : List Node) : Option Nat → Bool
  | none => true
  | some i => isFirstContentIdx sibs i

/-- Embeds `is_last_content_node(el)` where `l` is the sibling list from `el`
onwards (`l = []` is Python `None`): `True` at the end, recurse while
whitespace, else `False`. -/
def lastContentFrom : List Node → Bool
  | [] => true
  | n :: rest => isWhiteSpaceNode n && lastContentFrom rest

/-- The index loop of `is_nth_child`:
`while not is_first_content_node(el): if not is_white_space(el): index += 1;
el = el.previousSibling`, for `el = sibs[i]`. -/
def nthIndexIdx (sibs : List Node) : Nat → Nat
  | 0 =>
      if isFirstContentIdx sibs 0 then 0
      else if isWhiteSpaceNode (sibs.getD 0 (.text [])) then 0 else 1
  | i + 1 =>
      if isFirstContentIdx sibs (i + 1) then 0
      else (if isWhiteSpaceNode (sibs.getD (i + 1) (.text [])) then 0 else 1) +
             nthIndexIdx sibs i

/-- The structural index computed by `is_nth_child` for an optional
element reference (`none` is Python `None`, whose loop exits at once
with index 0). -/
def nthIndexRef (root : Node) (el : Option Path) : Nat :=
  match el with
  | none => 0
  | some p =>
      let si := contextOf root p
      nthIndexIdx si.1 si.2

/-- Embeds `is_first_content_node(ref)` for an optional node reference. -/
def isFirstContentRef (root : Node) : Option Path → Bool
  | none => true
  | some p =>
      let si := contextOf root p
      isFirstContentIdx si.1 si.2

/-- Embeds `is_last_content_node(ref)` for an optional node reference. -/
def isLastContentRef (root : Node) : Option Path → Bool
  | none => true
  | some p =>
      let si := contextOf root p
      lastContentFrom (si.1.drop si.2)

/-! ## The `nth-child` expression
`NTH_EXPR = re.compile(r'((?P<coefficient>[0-9]+)?[nN])?[\-\+]?(?P<constant>[0-9]+)?')`
and `is_nth_child`. -/

/-- Value of a digit string. -/
def digitsToNat (ds : Str) : Nat :=
  ds.foldl (fun a c => 10 * a + (c.toNat - 48)) 0

/-- Embeds `re.match(NTH_EXPR, nth)`.  The pattern
`((?P<coefficient>[0-9]+)?[nN])?[\-\+]?(?P<constant>[0-9]+)?` is matched
at position 0: an optional coefficient-and-`n` group (if the leading
digit run is not followed by `n`/`N`, the whole group backtracks to
absent and matching resumes at position 0), an optional sign that is
captured by no group, and an optional digit constant.  Every part is
optional, so — matching the Python regex — the match always succeeds;
the `Option` mirrors the `if not match: raise` interface of the source. -/
def matchNthExpr (s : Str) : Option (Option Nat × Option Nat) :=
  let ds := s.takeWhile Char.isDigit
  let coRest : Option Nat × Str :=
    match s.drop ds.length with
    | c :: r =>
        if c == 'n' || c == 'N' then
          (if ds.isEmpty then none else some (digitsToNat ds), r)
        else (none, s)
    | [] => (none, s)
  let rest2 : Str :=
    match coRest.2 with
    | c :: r => if c == '-' || c == '+' then r else coRest.2
    | [] => coRest.2
  let ks := rest2.takeWhile Char.isDigit
  some (coRest.1, if ks.isEmpty then none else some (digitsToNat ks))

/-- Errors `select` can raise (plus the modelled `AttributeError` crash
of an attribute checker applied to `None`, and a fuel sentinel the
bounded loop never reaches on the runs proved about). -/
inductive SelErr where
  | noTokenMatch
  | multipleIds
  | nthExpr
  | notImplemented
  | attributeNone
  | fuelExhausted
deriving DecidableEq, Repr

/-- Embeds `is_nth_child(el, nth)`.  Computes the structural index, handles
`odd`/`even`, then matches `NTH_EXPR`; `int(g) if g else None` followed
by `if constant:` / `if coefficient:` makes a parsed `0` behave exactly
like an absent group, which `Option.getD 0` and the `!= 0` tests
reproduce.  Python `%` on a positive modulus is `Int.emod`. -/
def is_nth_child (root : Node) (el : Option Path) (nth : Str) : Except SelErr Bool :=
  let index : Int := nthIndexRef root el
  if nth == "odd".data then .ok ((index - 1) % 2 == 0)
  else if nth == "even".data then .ok (index % 2 == 0)
  else
    match matchNthExpr nth with
    | none => .error .nthExpr
    | some (co, k) =>
        let a : Int := (co.getD 0 : Nat)
        let b : Int := (k.getD 0 : Nat)
        if b != 0 then
          if a != 0 then .ok ((index - b) % a == 0)
          else .ok (index == b)
        else
          if a != 0 then .ok (index % a == 0)
          else .ok true

/-! ## Attribute access and the predicate library -/

/-- A bs4 attribute value: a plain string, or the multi-valued `class`
list. -/
inductive AttrVal where
  | s (v : Str)
  | cls (l : List Str)

/-- Association-list lookup among single-valued attributes. -/
def lookupAttr : List (Str × Str) → Str → Option Str
  | [], _ => none
  | (k, v) :: rest, name => if k == name then some v else lookupAttr rest name

/-- Embeds `el.get(name)`: `class` yields the multi-valued list (absent when
empty), other names the plain string. -/
def getAttr (n : Node) (name : Str) : Option AttrVal :=
  match n with
  | .elem _ attrs classes _ =>
      if name == "class".data then
        if classes.isEmpty then none else some (.cls classes)
      else (lookupAttr attrs name).map .s
  | _ => none

/-- Embeds `el.has_attr(name)`. -/
def hasAttr (n : Node) (name : Str) : Bool :=
  (getAttr n name).isSome

/-- Python `str.split()`: split on whitespace runs. -/
def splitWsAux : Str → Str → List Str
  | [], acc => if acc.isEmpty then [] else [acc.reverse]
  | c :: rest, acc =>
      if c.isWhitespace then
        if acc.isEmpty then splitWsAux rest [] else acc.reverse :: splitWsAux rest []
      else splitWsAux rest (c :: acc)

/-- Python `str.split()`. -/
def splitWs (s : Str) : List Str := splitWsAux s []

/-- Naive substring test (Python `value in string`). -/
def isSubstring (needle hay : Str) : Bool :=
  (List.range (hay.length + 1)).any fun i => needle.isPrefixOf (hay.drop i)

/-- Embeds `get_attribute_checker(operator, attribute, value)` evaluated at a
node.  An unrecognized (absent) operator falls back to `has_attr`.
String methods applied to the multi-valued `class` list raise
`AttributeError` in Python, modelled as `.error .attributeNone`-style
failures via `.attributeNone`. -/
def evalAttrChecker (op : Option Char) (attrName value : Str) (n : Node) :
    Except SelErr Bool :=
  match op with
  | none => .ok (hasAttr n attrName)
  | some c =>
      if c == '=' then
        -- el.get(attribute) == value
        .ok (match getAttr n attrName with
             | some (.s v) => v == value
             | _ => false)
      else
        -- the remaining operators start from el.get(attribute, '')
        match getAttr n attrName with
        | some (.cls _) => .error .attributeNone
        | other =>
            let v : Str := match other with | some (.s v) => v | _ => []
            if c == '~' then .ok ((splitWs v).contains value)
            else if c == '^' then .ok (value.isPrefixOf v)
            else if c == '$' then .ok (value.isSuffixOf v)
            else if c == '*' then .ok (isSubstring value v)
            else if c == '|' then .ok (v == value || (value ++ ['-']).isPrefixOf v)
            else .ok (hasAttr n attrName)

/-- A compiled checker function: either an attribute checker or a
pseudo-class checker (`get_pseudo_class_checker`); unknown pseudo-class
names compile to the constant-`False` function. -/
inductive CheckFn where
  | attrFn (op : Option Char) (attrName value : Str)
  | nthFn (arg : Str)
  | firstChildFn
  | lastChildFn
  | alwaysFalseFn

/-- Evaluate one checker function at an optional node reference.
Attribute checkers applied to `None` crash (`None.get` /
`None.has_attr`); the pseudo-class checkers tolerate `None` via
`getattr(el, ..., None)` and the `None`-handling of the sibling walks. -/
def evalFn (root : Node) : CheckFn → Option Path → Except SelErr Bool
  | .attrFn op attrName value, el =>
      match el with
      | none => .error .attributeNone
      | some p => evalAttrChecker op attrName value (nodeAtD root p)
  | .nthFn arg, el => is_nth_child root el arg
  | .firstChildFn, el => .ok (isFirstContentRef root (el.bind prevSiblingOf))
  | .lastChildFn, el => .ok (isLastContentRef root (el.bind (nextSiblingOf root)))
  | .alwaysFalseFn, _ => .ok false

/-- Embeds `get_checker(functions)`: run the checkers in order; the first
`False` makes the checker return Python `False` (here `none`), otherwise
it returns its argument `el` itself (here `some el`). -/
def runChecker (root : Node) : List CheckFn → Option Path → Except SelErr (Option (Option Path))
  | [], el => .ok (some el)
  | f :: fs, el => do
      let b ← evalFn root f el
      if b then runChecker root fs el else .ok none

/-- Python truthiness of a checker result: `False` and `None` are falsy,
a Tag is truthy (bs4 `Tag.__bool__` is constantly `True`). -/
def truthyRes : Option (Option Path) → Bool
  | some (some _) => true
  | _ => false

/-- Structural equality at `Option` level: `None == None` is `True`,
`None` never equals a node, nodes compare with `Tag.__eq__`. -/
def beqON : Option Node → Option Node → Bool
  | none, none => true
  | some a, some b => nodeBEq a b
  | _, _ => false

/-- The node value a reference denotes (`none` for Python `None`). -/
def refVal (root : Node) (o : Option Path) : Option Node :=
  o.bind (nodeAt root)

/-- The Python comparison `checker(found) == ref` used by the `>` and `+`
combinator steps: `False == anything` is `False`; otherwise compare the
referenced values structurally. -/
def pyEq (root : Node) (res : Option (Option Path)) (ref : Option Path) : Bool :=
  match res with
  | none => false
  | some x => beqON (refVal root x) (refVal root ref)

/-! ## The search triple (tag, id list, class filter) and the three
bs4 search primitives the engine calls -/

/-- Whether a node matches `find`'s `(name, attrs)` arguments as the
engine builds them: `tag` is `True` (`none`) or a tag-name string;
`find_dict` holds `id: ids` (a list — any listed id may equal the node's
id) and `class: partial(operator.contains, classes)` (bs4 applies a
callable to each value of the multi-valued attribute and then to the
space-joined whole; absent attribute means the callable gets `None`,
which is in no class list).  Only `Tag`s match when a name is given,
which is always the case here. -/
def matchesFilter (tag : Option Str) (ids classes : List Str) (n : Node) : Bool :=
  match n with
  | .elem t _ nodeCls _ =>
      (match tag with | none => true | some tn => t == tn) &&
      (ids.isEmpty ||
        (match getAttr n "id".data with
         | some (.s v) => ids.contains v
         | _ => false)) &&
      (classes.isEmpty ||
        (!nodeCls.isEmpty &&
          (nodeCls.any (fun c => classes.contains c) ||
            classes.contains (List.intercalate [' '] nodeCls))))
  | _ => false

/-- Embeds `context.find_all(tag, find_dict)`: all strict descendants of the
node at `base`, in document order, that match the triple. -/
def findAll (root : Node) (base : Path) (tag : Option Str) (ids classes : List Str) :
    List Path :=
  let b := nodeAtD root base
  ((subtreePaths b).filter fun rp => matchesFilter tag ids classes (nodeAtD b rp)).map
    fun rp => base ++ rp

/-- Embeds `el.findParent(tag, find_dict)`: nearest matching strict ancestor. -/
def findParent (root : Node) (p : Path) (tag : Option Str) (ids classes : List Str) :
    Option Path :=
  (prefixesDesc p).find? fun q => matchesFilter tag ids classes (nodeAtD root q)

/-- Embeds `el.findPreviousSibling(tag, find_dict)`: nearest matching previous
sibling. -/
def findPrevSibling (root : Node) (p : Path) (tag : Option Str) (ids classes : List Str) :
    Option Path :=
  match p.reverse with
  | [] => none
  | i :: qrev =>
      let q := qrev.reverse
      let sibs := childrenAt root q
      ((prevIndicesDesc i).find? fun j =>
          matchesFilter tag ids classes (sibs.getD j (.text []))).map
        fun j => q ++ [j]

/-! ## Compiling one simple-selector token -/

/-- Character class of an attribute name in `ATTRIBUTE_PATTERN`:
`[^\s\]=~\|\^\$\*]`. -/
def attrNameChar (c : Char) : Bool :=
  !c.isWhitespace && c != ']' && c != '=' && c != '~' && c != '|' &&
    c != '^' && c != '$' && c != '*'

/-- The operator class `[=~\|\^\$\*]` of `ATTRIBUTE_PATTERN`. -/
def attrOpChar (c : Char) : Bool :=
  c == '=' || c == '~' || c == '|' || c == '^' || c == '$' || c == '*'

/-- The double-quote character. -/
def dquote : Char := Char.ofNat 34

/-- The single-quote character. -/
def squote : Char := Char.ofNat 39

/-- One match of `ATTRIBUTE_PATTERN` starting just after a `[`:
`(?P<attribute>[^\s\]=~\|\^\$\*]+)(?P<operator>[=~\|\^\$\*]?)=?["\']?(?P<value>[^\]"]*)["\']?\]`.
Returns the `(attribute, operator, value)` groups and the remainder after
the closing `]` (where `findall` resumes). -/
def parseAttrBody (s : Str) : Option ((Str × Option Char × Str) × Str) :=
  let name := s.takeWhile attrNameChar
  if name.isEmpty then none
  else
    let r1 := s.drop name.length
    let opR2 : Option Char × Str :=
      match r1 with
      | c :: rest => if attrOpChar c then (some c, rest) else (none, r1)
      | [] => (none, r1)
    let r3 : Str :=
      match opR2.2 with
      | c :: rest => if c == '=' then rest else opR2.2
      | [] => opR2.2
    let r4 : Str :=
      match r3 with
      | c :: rest => if c == dquote || c == squote then rest else r3
      | [] => r3
    let value := r4.takeWhile fun c => c != ']' && c != dquote
    let r5 := r4.drop value.length
    let r6 : Str :=
      match r5 with
      | c :: rest => if c == dquote then rest else r5
      | [] => r5
    match r6 with
    | c :: rest => if c == ']' then some ((name, opR2.1, value), rest) else none
    | [] => none

/-- Embeds `ATTRIBUTE_PATTERN.findall(token)`: left-to-right, non-overlapping;
a match can only start at a `[`.  The fuel starts at the token length and
bounds the scan (each recursive step drops at least one character). -/
def findAttrsAux : Nat → Str → List (Str × Option Char × Str)
  | 0, _ => []
  | _ + 1, [] => []
  | f + 1, c :: rest =>
      if c == '[' then
        match parseAttrBody rest with
        | some (a, rem) => a :: findAttrsAux f rem
        | none => findAttrsAux f rest
      else findAttrsAux f rest

/-- Embeds `ATTRIBUTE_PATTERN.findall(token)`. -/
def findAttrs (tok : Str) : List (Str × Option Char × Str) :=
  findAttrsAux tok.length tok

/-- Single-character alternative `[^:.#(*\[]` of `PSEUDO_CLASS_PATTERN`. -/
def pseudoSingleChar (c : Char) : Bool :=
  c != ':' && c != '.' && c != '#' && c != '(' && c != '*' && c != '['

/-- The repeated group `([^:.#(*\[]|\([^)]+\))+` of `PSEUDO_CLASS_PATTERN`,
matched greedily after a `:`.  Returns the consumed group text and the
remainder; fuel bounds the scan as each unit consumes at least one
character. -/
def pseudoUnitsAux : Nat → Str → Str × Str
  | 0, s => ([], s)
  | _ + 1, [] => ([], [])
  | f + 1, c :: rest =>
      if c == '(' then
        let inner := rest.takeWhile (· != ')')
        if inner.isEmpty then ([], c :: rest)
        else
          match rest.drop inner.length with
          | [] => ([], c :: rest)
          | _ :: tail =>
              let more := pseudoUnitsAux f tail
              ('(' :: (inner ++ ')' :: more.1), more.2)
      else if pseudoSingleChar c then
        let more := pseudoUnitsAux f rest
        (c :: more.1, more.2)
      else ([], c :: rest)

/-- Embeds `PSEUDO_CLASS_PATTERN.finditer(token)` with
`PSEUDO_CLASS_PATTERN = re.compile(u':(([^:.#(*\\[]|\\([^)]+\\))+)')`:
collect the group of every match, scanning left to right and resuming
after each match. -/
def findPseudosAux : Nat → Str → List Str
  | 0, _ => []
  | _ + 1, [] => []
  | f + 1, c :: rest =>
      if c == ':' then
        let grp := pseudoUnitsAux rest.length rest
        if grp.1.isEmpty then findPseudosAux f rest
        else grp.1 :: findPseudosAux f grp.2
      else findPseudosAux f rest

/-- Embeds `PSEUDO_CLASS_PATTERN.finditer(token)`, groups only. -/
def findPseudos (tok : Str) : List Str :=
  findPseudosAux tok.length tok

/-- Embeds `re.findall('#([a-zA-Z0-9_-]+)', token)` and
`re.findall('\.([a-zA-Z0-9_-]+)', token)`: every marker followed by a
nonempty id-character run, non-overlapping. -/
def findGroupsAux (marker : Char) : Nat → Str → List Str
  | 0, _ => []
  | _ + 1, [] => []
  | f + 1, c :: rest =>
      if c == marker then
        let run := rest.takeWhile isIdChar
        if run.isEmpty then findGroupsAux marker f rest
        else run :: findGroupsAux marker f (rest.drop run.length)
      else findGroupsAux marker f rest

/-- All groups of `#...` (resp. `\....`) matches in a token. -/
def findGroups (marker : Char) (tok : Str) : List Str :=
  findGroupsAux marker tok.length tok

/-- Embeds `re.match(r"nth-child\((\S+)\)", psuedo_class)`: anchored at the
start, `\S+` greedy then backtracking so that a `)` follows; i.e. the
group ends at the last `)` inside the maximal non-whitespace run after
`nth-child(`, and must be nonempty.  Trailing text after that `)` is
allowed (`re.match` is not `fullmatch`). -/
def nthChildArg (g : Str) : Option Str :=
  if "nth-child(".data.isPrefixOf g then
    let rest := g.drop 10
    let r := rest.takeWhile fun c => !c.isWhitespace
    match r.reverse.findIdx? (· == ')') with
    | none => none
    | some j =>
        let k := r.length - 1 - j
        if 1 ≤ k then some (r.take k) else none
  else none

/-- Embeds `get_pseudo_class_checker(psuedo_class)`. -/
def pseudoCheckFn (g : Str) : CheckFn :=
  match nthChildArg g with
  | some arg => .nthFn arg
  | none =>
      if g == "first-child".data then .firstChildFn
      else if g == "last-child".data then .lastChildFn
      else .alwaysFalseFn

/-- The compiled form of one simple-selector token: the checker functions
(attribute checkers first, then pseudo-class checkers, in source order),
the tag constraint (`none` is Python `True`), the id list and the class
list handed to the bs4 searches. -/
structure TokData where
  fns : List CheckFn
  tag : Option Str
  ids : List Str
  classes : List Str

/-- Compilation of one token inside `select`'s loop: attribute clauses,
pseudo-class clauses, leading tag name (`re.findall('^([a-zA-Z0-9]+)', token)`,
which yields at most one match, so the `Multiple tags` branch of the
source is unreachable), ids (`raise` when more than one) and classes. -/
def compileToken (tok : Str) : Except SelErr TokData :=
  let attrs := findAttrs tok
  let pseudos := findPseudos tok
  let fns := attrs.map (fun a => CheckFn.attrFn a.2.1 a.1 a.2.2) ++
               pseudos.map pseudoCheckFn
  let tagRun := tok.takeWhile Char.isAlphanum
  let tag : Option Str := if tagRun.isEmpty then none else some tagRun
  let ids := findGroups '#' tok
  if ids.length > 1 then .error .multipleIds
  else .ok ⟨fns, tag, ids, findGroups '.' tok⟩

/-! ## The combinator matching engine (`select`'s while loop) -/

/-- A `MatchContext`: the anchor node (returned if the context survives)
and the current candidates.  A candidate can be Python `None`: the `+`
step appends `el.previousSibling` unconditionally on success. -/
abbrev Ctx := Path × List (Option Path)

/-- The list comprehension filter
`[el for el in ... if checker(el)]`, with checker errors propagated in
evaluation order. -/
def filterE {ε α : Type} (g : α → Except ε Bool) : List α → Except ε (List α)
  | [] => .ok []
  | x :: xs =>
      match g x with
      | .error e => .error e
      | .ok b =>
          match filterE g xs with
          | .error e => .error e
          | .ok r => .ok (if b then x :: r else r)

/-- The seed matches of one context:
`[el for el in context[0].find_all(tag, find_dict) if checker(el)]`
(a found element is a Tag, hence truthy; `checker` returns it or `False`). -/
def seedMatches (root : Node) (td : TokData) (base : Path) : Except SelErr (List Path) :=
  filterE
    (fun p =>
      match runChecker root td.fns (some p) with
      | .error e => .error e
      | .ok res => .ok (truthyRes res))
    (findAll root base td.tag td.ids td.classes)

/-- The seed step (`operator is None`): every match becomes a context
anchored at itself with itself as only candidate, in document order,
context by context. -/
def seedFold (root : Node) (td : TokData) : List Ctx → Except SelErr (List Ctx)
  | [] => .ok []
  | ctx :: rest =>
      match seedMatches root td ctx.1 with
      | .error e => .error e
      | .ok ms =>
          match seedFold root td rest with
          | .error e => .error e
          | .ok r => .ok (ms.map (fun m => (m, ([some m] : List (Option Path)))) ++ r)

/-- Per-candidate processing of a combinator step: `g` yields `none` to
drop the candidate or `some v` to append `v` to `context_matches`. -/
def mapCandsE (g : Option Path → Except SelErr (Option (Option Path))) :
    List (Option Path) → Except SelErr (List (Option Path))
  | [] => .ok []
  | el :: rest =>
      match g el with
      | .error e => .error e
      | .ok keep =>
          match mapCandsE g rest with
          | .error e => .error e
          | .ok r => .ok (match keep with | none => r | some v => v :: r)

/-- Embeds `el.findParent(tag, find_dict)` on a candidate; a `None` candidate
crashes with `AttributeError`. -/
def candFindParent (root : Node) (td : TokData) :
    Option Path → Except SelErr (Option Path)
  | none => .error .attributeNone
  | some p => .ok (findParent root p td.tag td.ids td.classes)

/-- Candidate processing of the descendant (`' '`) step:
`if checker(el.findParent(tag, find_dict)): context_matches.append(el)`. -/
def descCand (root : Node) (td : TokData) (el : Option Path) :
    Except SelErr (Option (Option Path)) :=
  match candFindParent root td el with
  | .error e => .error e
  | .ok fp =>
      match runChecker root td.fns fp with
      | .error e => .error e
      | .ok res => .ok (if truthyRes res then some el else none)

/-- Candidate processing of the child (`'>'`) step:
`if checker(el.findParent(tag, find_dict)) == el.parent: context_matches.append(el.parent)`. -/
def childCand (root : Node) (td : TokData) (el : Option Path) :
    Except SelErr (Option (Option Path)) :=
  match candFindParent root td el with
  | .error e => .error e
  | .ok fp =>
      match runChecker root td.fns fp with
      | .error e => .error e
      | .ok res =>
          match el with
          | none => .error .attributeNone
          | some p => .ok (if pyEq root res (parentOf p) then some (parentOf p) else none)

/-- Candidate processing of the adjacent-sibling (`'+'`) step:
`if checker(el.findPreviousSibling(tag, find_dict)) == el.previousSibling:
context_matches.append(el.previousSibling)`. -/
def adjCand (root : Node) (td : TokData) (el : Option Path) :
    Except SelErr (Option (Option Path)) :=
  match el with
  | none => .error .attributeNone
  | some p =>
      match runChecker root td.fns (findPrevSibling root p td.tag td.ids td.classes) with
      | .error e => .error e
      | .ok res => .ok (if pyEq root res (prevSiblingOf p) then some (prevSiblingOf p) else none)

/-- The descendant step over all contexts, dropping contexts with no
surviving candidate (`if context_matches: found.append(...)`). -/
def stepDescendant (root : Node) (td : TokData) : List Ctx → Except SelErr (List Ctx)
  | [] => .ok []
  | ctx :: rest =>
      match mapCandsE (descCand root td) ctx.2 with
      | .error e => .error e
      | .ok cms =>
          match stepDescendant root td rest with
          | .error e => .error e
          | .ok r => .ok (if cms.isEmpty then r else (ctx.1, cms) :: r)

/-- The child step over all contexts. -/
def stepChild (root : Node) (td : TokData) : List Ctx → Except SelErr (List Ctx)
  | [] => .ok []
  | ctx :: rest =>
      match mapCandsE (childCand root td) ctx.2 with
      | .error e => .error e
      | .ok cms =>
          match stepChild root td rest with
          | .error e => .error e
          | .ok r => .ok (if cms.isEmpty then r else (ctx.1, cms) :: r)

/-- The adjacent-sibling step over all contexts. -/
def stepAdjacent (root : Node) (td : TokData) : List Ctx → Except SelErr (List Ctx)
  | [] => .ok []
  | ctx :: rest =>
      match mapCandsE (adjCand root td) ctx.2 with
      | .error e => .error e
      | .ok cms =>
          match stepAdjacent root td rest with
          | .error e => .error e
          | .ok r => .ok (if cms.isEmpty then r else (ctx.1, cms) :: r)

/-- One pass of the matching engine for the current token, dispatching on
the pending operator exactly as the source's `if`/`elif` chain does
(`None` seeds; `' '` descendant; `'>'` child; `'~'` raises
`NotImplementedError`; `'+'` adjacent sibling; any other operator text
matches no branch and leaves `found` empty). -/
def applyToken (root : Node) (td : TokData) (op : Option Str) (ctxs : List Ctx) :
    Except SelErr (List Ctx) :=
  match op with
  | none => seedFold root td ctxs
  | some o =>
      if o == [' '] then stepDescendant root td ctxs
      else if o == ['>'] then stepChild root td ctxs
      else if o == ['~'] then .error .notImplemented
      else if o == ['+'] then stepAdjacent root td ctxs
      else .ok []

/-- The `while selector:` loop of `select`.  The state is the remaining
selector text, the `handle_token` flag, the pending operator (`None`
until the first combinator is scanned) and the current contexts; on exit
it returns the anchors.  A token step always removes at least one
character and an operator step never adds any, so `2·length + 2` fuel is
never exhausted (the sentinel is unreachable on every run reasoned about
below). -/
def selectLoop (root : Node) :
    Nat → Str → Bool → Option Str → List Ctx → Except SelErr (List Path)
  | 0, _, _, _, _ => .error .fuelExhausted
  | fuel + 1, sel, handleTok, op, ctxs =>
      if sel.isEmpty then .ok (ctxs.map fun c => c.1)
      else if handleTok then
        match searchToken sel with
        | none => .error .noTokenMatch
        | some tok =>
            let sel2 := rstrip (sel.take (sel.length - tok.length))
            match compileToken tok with
            | .error e => .error e
            | .ok td =>
                match applyToken root td op ctxs with
                | .error e => .error e
                | .ok found => selectLoop root fuel sel2 false op found
      else
        let os := scanOperator sel
        selectLoop root fuel os.2 true (some os.1) ctxs

/-- Embeds `select(soup, selector)` over an embedded selector string: initial
context `[(soup, [])]`, `handle_token = True`, no pending operator. -/
def selectL (root : Node) (sel : Str) : Except SelErr (List Path) :=
  selectLoop root (2 * sel.length + 2) sel true none [([], [])]

/-- Embeds `select(soup, selector)`: the result is the list of anchors
(`[entry[0] for entry in current_context]`), as paths from the root. -/
def select (root : Node) (selector : String) : Except SelErr (List Path) :=
  selectL root selector.data

/-! ## Definitions used by the statements and proofs -/

/-- A selector token that is a plain tag name: nonempty and alphanumeric. -/
def ValidTag (T : Str) : Prop :=
  T ≠ [] ∧ T.all Char.isAlphanum = true

instance (T : Str) : Decidable (ValidTag T) :=
  (inferInstance : Decidable (T ≠ [] ∧ T.all Char.isAlphanum = true))

/-- Anchors of the surviving contexts
(`[entry[0] for entry in current_context]`), with errors passed through. -/
def anchorsOf : Except SelErr (List Ctx) → Except SelErr (List Path)
  | .error e => .error e
  | .ok found => .ok (found.map fun c => c.1)

/-- An element node with tag `T` sits at `p` (the reference predicate of
the single-tag-selector property). -/
def isTagElem (root : Node) (T : Str) (p : Path) : Bool :=
  match nodeAt root p with
  | some (.elem t _ _ _) => t == T
  | _ => false

/-! ## Concrete fixtures for the claims -/

/-- A document whose only element has class `a` (and not `b`). -/
def docMultiClass : Node :=
  .elem "[document]".data [] [] [.elem "div".data [] ["a".data] []]

/-- A document whose only element, `c`, has no previous sibling. -/
def docAdjacent : Node :=
  .elem "[document]".data [] [] [.elem "c".data [] [] []]

/-- A document with a single `li` (structural index 1). -/
def docSingleLi : Node :=
  .elem "[document]".data [] [] [.elem "li".data [] [] []]

/-- A document with a `p` inside a `div`. -/
def docNested : Node :=
  .elem "[document]".data [] [] [.elem "div".data [] [] [.elem "p".data [] [] []]]

/-! ## Test-tree fixtures for the evaluation examples -/

def d1 : Node := .elem "[document]".data [] [] [.elem "div".data [] ["a".data] []]

def d2 : Node := .elem "[document]".data [] [] [.elem "c".data [] [] []]

def d3 : Node := .elem "[document]".data [] [] [.elem "li".data [] [] []]

def d6 : Node := .elem "[document]".data [] [] [.elem "div".data [] [] [.elem "p".data [] [] []]]

def d8 : Node := .elem "[document]".data [] []
  [.elem "ul".data [] []
    [.elem "li".data [] [] [], .elem "li".data [] [] [], .elem "li".data [] [] []]]

def dspec : Node := .elem "[document]".data [] []
  [.elem "div".data [("id".data, "main".data)] []
    [.elem "p".data [] ["x".data] [.text "1".data],
     .elem "p".data [] ["y".data] [.text "2".data]]]

def dws : Node := .elem "[document]".data [] []
  [.elem "ul".data [] []
    [.text " ".data, .elem "li".data [] [] [], .text " ".data,
     .elem "li".data [] [] [], .comment "c".data]]

def dattr : Node := .elem "[document]".data [] []
  [.elem "a".data [("href".data, "xy".data)] [] [], .elem "b".data [] [] []]

def dattr2 : Node := .elem "[document]".data [] []
  [.elem "div".data [] [] [.elem "a".data [("href".data, "xy".data)] [] []]]

/-! ## Helper lemmas: characters -/

theorem ValidTag.mem_alnum {T : Str} (h : ValidTag T) : ∀ c ∈ T, c.isAlphanum = true :=
  fun c hc => List.all_eq_true.mp h.2 c hc

theorem alnum_ne_char {c : Char} (x : Char) (h : c.isAlphanum = true)
    (hx : x.isAlphanum = false) : (c == x) = false := by
  by_cases hcx : c = x
  · subst hcx; rw [h] at hx; exact absurd hx (by simp)
  · exact beq_eq_false_iff_ne.mpr hcx

theorem alnum_tokenChar {c : Char} (h : c.isAlphanum = true) : tokenChar c = true := by
  simp [tokenChar, h]

theorem alnum_not_ws {c : Char} (h : c.isAlphanum = true) : c.isWhitespace = false := by
  by_cases h1 : c = ' '
  · subst h1; exact absurd h (by decide)
  by_cases h2 : c = '\t'
  · subst h2; exact absurd h (by decide)
  by_cases h3 : c = '\r'
  · subst h3; exact absurd h (by decide)
  by_cases h4 : c = '\n'
  · subst h4; exact absurd h (by decide)
  simp [Char.isWhitespace, h1, h2, h3, h4]

theorem alnum_not_op {c : Char} (h : c.isAlphanum = true) : isOpChar c = false := by
  simp [isOpChar, alnum_ne_char '>' h (by decide), alnum_ne_char '~' h (by decide),
    alnum_ne_char '+' h (by decide)]

theorem op_not_ws {c : Char} (h : isOpChar c = true) : c.isWhitespace = false := by
  rcases (by simpa [isOpChar] using h : (c = '>' ∨ c = '~') ∨ c = '+') with (h' | h') | h' <;>
    subst h' <;> decide

/-! ## Helper lemmas: list scanning -/

theorem takeWhile_all {p : Char → Bool} {l : Str} (h : ∀ c ∈ l, p c = true) :
    l.takeWhile p = l := by
  induction l with
  | nil => rfl
  | cons a t ih =>
      simp [List.takeWhile_cons, h a (by simp), ih fun c hc => h c (by simp [hc])]

theorem takeWhile_nil {p : Char → Bool} {l : Str} (h : ∀ c ∈ l, p c = false) :
    l.takeWhile p = [] := by
  cases l with
  | nil => rfl
  | cons a t => simp [List.takeWhile_cons, h a (by simp)]

theorem takeWhile_append_stop {p : Char → Bool} {as : Str} {b : Char} (bs : Str)
    (ha : ∀ c ∈ as, p c = true) (hb : p b = false) :
    (as ++ b :: bs).takeWhile p = as := by
  induction as with
  | nil => simp [List.takeWhile_cons, hb]
  | cons a t ih =>
      simp [List.cons_append, List.takeWhile_cons, ha a (by simp),
        ih fun c hc => ha c (by simp [hc])]

theorem rstrip_nil : rstrip [] = [] := rfl

theorem rstrip_concat_ws {c : Char} (l : Str) (h : c.isWhitespace = true) :
    rstrip (l ++ [c]) = rstrip l := by
  simp [rstrip, List.dropWhile_cons, h]

theorem rstrip_concat_not_ws {c : Char} (l : Str) (h : c.isWhitespace = false) :
    rstrip (l ++ [c]) = l ++ [c] := by
  simp [rstrip, List.dropWhile_cons, h]

theorem rstrip_all_not_ws {l : Str} (h : ∀ c ∈ l, c.isWhitespace = false) :
    rstrip l = l := by
  rw [rstrip]
  cases hrev : l.reverse with
  | nil => simpa using congrArg List.reverse hrev.symm
  | cons a t =>
      have ha : a ∈ l := by
        rw [← List.mem_reverse, hrev]; simp
      rw [List.dropWhile_cons, h a ha]
      simpa using congrArg List.reverse hrev.symm

theorem isEmpty_append_cons {α : Type} (l : List α) (a : α) (r : List α) :
    (l ++ a :: r).isEmpty = false := by
  cases l <;> rfl

/-- Removing a suffix token: `(xs ++ ys).take ((xs ++ ys).length - ys.length) = xs`. -/
theorem take_drop_suffix {α : Type} (xs ys : List α) :
    (xs ++ ys).take ((xs ++ ys).length - ys.length) = xs := by
  have h : (xs ++ ys).length - ys.length = xs.length := by
    simp
  rw [h, List.take_left]

/-- Embeds `searchToken` on a string made entirely of token characters returns
the whole string. -/
theorem searchToken_all {T : Str} (hne : T ≠ []) (h : ∀ c ∈ T, tokenChar c = true) :
    searchToken T = some T := by
  obtain ⟨c, hc⟩ : ∃ c, T.getLast? = some c := by
    cases hl : T.getLast? with
    | none => exact absurd (List.getLast?_eq_none_iff.mp hl) hne
    | some c => exact ⟨c, rfl⟩
  have hcT : c ∈ T := List.mem_of_mem_getLast? hc
  rw [searchToken, hc]
  simp only [h c hcT, if_true]
  rw [takeWhile_all fun d hd => h d (List.mem_reverse.mp hd), List.reverse_reverse]

/-- Embeds `searchToken` on `xs ++ c :: ys` with `c` not a token character and
`ys` a nonempty run of token characters returns `ys`. -/
theorem searchToken_append {xs : Str} {c : Char} {ys : Str}
    (hc : tokenChar c = false) (hne : ys ≠ []) (hys : ∀ d ∈ ys, tokenChar d = true) :
    searchToken (xs ++ c :: ys) = some ys := by
  obtain ⟨d, hd⟩ : ∃ d, ys.getLast? = some d := by
    cases hl : ys.getLast? with
    | none => exact absurd (List.getLast?_eq_none_iff.mp hl) hne
    | some d => exact ⟨d, rfl⟩
  have hsplit : xs ++ c :: ys = (xs ++ [c]) ++ ys := by simp
  have hlast : (xs ++ c :: ys).getLast? = some d := by
    rw [hsplit, List.getLast?_append_of_ne_nil _ hne, hd]
  have hdy : d ∈ ys := List.mem_of_mem_getLast? hd
  rw [searchToken, hlast]
  simp only [hys d hdy, if_true]
  have hrev : (xs ++ c :: ys).reverse = ys.reverse ++ c :: xs.reverse := by simp
  rw [hrev, takeWhile_append_stop _ (fun e he => hys e (List.mem_reverse.mp he)) hc,
    List.reverse_reverse]

/-- Embeds `scanOperator` finds no trailing combinator when every character of
the remaining selector is alphanumeric: the operator defaults to `' '`
and the selector is unchanged. -/
theorem scanOperator_default {sel : Str} (h : ∀ c ∈ sel, c.isAlphanum = true) :
    scanOperator sel = ([' '], sel) := by
  have hops : sel.reverse.takeWhile isOpChar = [] :=
    takeWhile_nil fun c hc => alnum_not_op (h c (List.mem_reverse.mp hc))
  rw [scanOperator, hops]
  rfl

/-- Embeds `scanOperator` on `xs ++ [b, o]` with `o` a combinator character and
`b` not: the operator is `[o]` and the remainder is `rstrip (xs ++ [b])`. -/
theorem scanOperator_single {xs : Str} {b o : Char}
    (hb : isOpChar b = false) (ho : isOpChar o = true) :
    scanOperator (xs ++ [b, o]) = ([o], rstrip (xs ++ [b])) := by
  have hrev : (xs ++ [b, o]).reverse = o :: b :: xs.reverse := by simp
  have hops : (xs ++ [b, o]).reverse.takeWhile isOpChar = [o] := by
    rw [hrev]
    simp [List.takeWhile_cons, ho, hb]
  have hsplit : xs ++ [b, o] = (xs ++ [b]) ++ [o] := by simp
  rw [scanOperator, hops]
  simp only [List.isEmpty_cons, List.reverse_cons, List.reverse_nil, List.nil_append]
  rw [hsplit, take_drop_suffix]
  simp

/-- Embeds `findAttrsAux` finds nothing in a bracket-free token. -/
theorem findAttrsAux_no_bracket {s : Str} (h : ∀ c ∈ s, (c == '[') = false) :
    ∀ f, findAttrsAux f s = [] := by
  induction s with
  | nil => intro f; cases f <;> rfl
  | cons c rest ih =>
      intro f
      cases f with
      | zero => rfl
      | succ f' =>
          rw [findAttrsAux, h c (by simp)]
          exact ih (fun d hd => h d (by simp [hd])) f'

/-- Embeds `findPseudosAux` finds nothing in a colon-free token. -/
theorem findPseudosAux_no_colon {s : Str} (h : ∀ c ∈ s, (c == ':') = false) :
    ∀ f, findPseudosAux f s = [] := by
  induction s with
  | nil => intro f; cases f <;> rfl
  | cons c rest ih =>
      intro f
      cases f with
      | zero => rfl
      | succ f' =>
          rw [findPseudosAux, h c (by simp)]
          exact ih (fun d hd => h d (by simp [hd])) f'

/-- Embeds `findGroupsAux` finds nothing in a marker-free token. -/
theorem findGroupsAux_no_marker {m : Char} {s : Str} (h : ∀ c ∈ s, (c == m) = false) :
    ∀ f, findGroupsAux m f s = [] := by
  induction s with
  | nil => intro f; cases f <;> rfl
  | cons c rest ih =>
      intro f
      cases f with
      | zero => rfl
      | succ f' =>
          rw [findGroupsAux, h c (by simp)]
          exact ih (fun d hd => h d (by simp [hd])) f'

/-- Compiling a plain tag-name token: no attribute clauses, no
pseudo-classes, the whole token as tag constraint, no ids, no classes. -/
theorem compileToken_tag {T : Str} (h : ValidTag T) :
    compileToken T = .ok ⟨[], some T, [], []⟩ := by
  have hmem := h.mem_alnum
  have hattrs : findAttrs T = [] :=
    findAttrsAux_no_bracket
      (fun c hc => alnum_ne_char '[' (hmem c hc) (by decide)) T.length
  have hpseudos : findPseudos T = [] :=
    findPseudosAux_no_colon
      (fun c hc => alnum_ne_char ':' (hmem c hc) (by decide)) T.length
  have hids : findGroups '#' T = [] :=
    findGroupsAux_no_marker
      (fun c hc => alnum_ne_char '#' (hmem c hc) (by decide)) T.length
  have hcls : findGroups '.' T = [] :=
    findGroupsAux_no_marker
      (fun c hc => alnum_ne_char '.' (hmem c hc) (by decide)) T.length
  have hrun : T.takeWhile Char.isAlphanum = T := takeWhile_all hmem
  have hTne : T.isEmpty = false := by
    cases hT : T with
    | nil => exact absurd hT h.1
    | cons a t => rfl
  simp only [compileToken, hattrs, hpseudos, hids, hcls, hrun, hTne, List.map_nil,
    List.nil_append, List.length_nil, Nat.lt_irrefl, gt_iff_lt, if_false,
    Bool.false_eq_true, decide_False, ite_false]
  simp

/-! ## Helper lemmas: the engine -/

theorem filterE_ok_true {ε α : Type} (g : α → Except ε Bool) (l : List α)
    (h : ∀ a ∈ l, g a = .ok true) : filterE g l = .ok l := by
  induction l with
  | nil => rfl
  | cons x xs ih =>
      rw [filterE, h x (by simp), ih fun a ha => h a (by simp [ha])]
      rfl

theorem filterE_congr {ε α : Type} {g₁ g₂ : α → Except ε Bool} {l : List α}
    (h : ∀ a ∈ l, g₁ a = g₂ a) : filterE g₁ l = filterE g₂ l := by
  induction l with
  | nil => rfl
  | cons x xs ih =>
      simp only [filterE]
      rw [h x (by simp), ih fun a ha => h a (by simp [ha])]

/-- A token with no checker functions seeds exactly `find_all`'s result:
the trivial checker returns every element, and elements are truthy. -/
theorem seedMatches_trivial (root : Node) (tag : Option Str) (ids classes : List Str)
    (base : Path) :
    seedMatches root ⟨[], tag, ids, classes⟩ base = .ok (findAll root base tag ids classes) :=
  filterE_ok_true _ _ fun _ _ => rfl

/-- Seeding the initial context `(soup, [])` with a checker-free token. -/
theorem seedFold_single_tag (root : Node) (tag : Option Str) (ids classes : List Str)
    (base : Path) :
    seedFold root ⟨[], tag, ids, classes⟩ [(base, ([] : List (Option Path)))] =
      .ok ((findAll root base tag ids classes).map
        fun m => (m, ([some m] : List (Option Path)))) := by
  rw [seedFold, seedMatches_trivial]
  simp [seedFold]

/-- One unfolding of the `while selector:` loop. -/
theorem selectLoop_succ (root : Node) (f : Nat) (sel : Str) (ht : Bool) (op : Option Str)
    (ctxs : List Ctx) :
    selectLoop root (f + 1) sel ht op ctxs =
      if sel.isEmpty then .ok (ctxs.map fun c => c.1)
      else if ht then
        match searchToken sel with
        | none => .error .noTokenMatch
        | some tok =>
            match compileToken tok with
            | .error e => .error e
            | .ok td =>
                match applyToken root td op ctxs with
                | .error e => .error e
                | .ok found =>
                    selectLoop root f (rstrip (sel.take (sel.length - tok.length))) false op found
      else selectLoop root f (scanOperator sel).2 true (some (scanOperator sel).1) ctxs := rfl

/-- A run of the loop on a selector that is a single token: it reduces to
the seed matches of that token. -/
theorem selectLoop_one_run (root : Node) (f : Nat) {sel tok : Str} {td : TokData}
    (h0 : sel ≠ []) (h1 : searchToken sel = some tok)
    (h2 : rstrip (sel.take (sel.length - tok.length)) = [])
    (h3 : compileToken tok = .ok td) :
    selectLoop root (f + 1 + 1) sel true none [([], [])] = seedMatches root td [] := by
  have hne : sel.isEmpty = false := by
    cases sel with
    | nil => exact absurd rfl h0
    | cons a t => rfl
  rw [selectLoop_succ, hne]
  simp only [Bool.false_eq_true, if_false, if_true, h1, h3, h2]
  rw [show applyToken root td none [([], [])] = seedFold root td [([], [])] from rfl]
  rw [seedFold]
  cases hsm : seedMatches root td [] with
  | error e => rfl
  | ok ms =>
      show selectLoop root (f + 1) [] false none
          ((ms.map fun m => (m, ([some m] : List (Option Path)))) ++ []) = .ok ms
      have hmm : ∀ l : List Path,
          ((l.map fun m => (m, ([some m] : List (Option Path)))).map fun c => c.1) = l := by
        intro l
        induction l with
        | nil => rfl
        | cons a t ih => simp [ih]
      rw [selectLoop_succ]
      simpa using hmm ms

/-- A run of the loop on `T1 <op> T2` (spaced combinator form, `op` one of
`>`, `~`, `+`): seed with `T2`, then apply the `T1` token under the
scanned operator, then return anchors. -/
theorem selectLoop_two_op_run (root : Node) (f : Nat) {T1 T2 : Str} {o : Char}
    (h1 : ValidTag T1) (h2 : ValidTag T2) (ho : isOpChar o = true) :
    selectLoop root (f + 1 + 1 + 1 + 1) (T1 ++ ' ' :: o :: ' ' :: T2) true none [([], [])] =
      anchorsOf (applyToken root ⟨[], some T1, [], []⟩ (some [o])
        ((findAll root [] (some T2) [] []).map fun m => (m, ([some m] : List (Option Path))))) := by
  have htok2 : ∀ d ∈ T2, tokenChar d = true :=
    fun d hd => alnum_tokenChar (h2.mem_alnum d hd)
  have hsearch : searchToken (T1 ++ ' ' :: o :: ' ' :: T2) = some T2 := by
    rw [show T1 ++ ' ' :: o :: ' ' :: T2 = (T1 ++ [' ', o]) ++ ' ' :: T2 by simp]
    exact searchToken_append (by decide) h2.1 htok2
  have hne1 : (T1 ++ ' ' :: o :: ' ' :: T2).isEmpty = false := isEmpty_append_cons _ _ _
  -- step 1: extract and seed the rightmost token T2
  rw [selectLoop_succ, hne1]
  simp only [Bool.false_eq_true, if_false, if_true, hsearch, compileToken_tag h2]
  have htake : rstrip ((T1 ++ ' ' :: o :: ' ' :: T2).take
      ((T1 ++ ' ' :: o :: ' ' :: T2).length - T2.length)) = (T1 ++ [' ']) ++ [o] := by
    rw [show T1 ++ ' ' :: o :: ' ' :: T2 = (T1 ++ [' ', o, ' ']) ++ T2 by simp,
      take_drop_suffix]
    rw [show T1 ++ [' ', o, ' '] = (T1 ++ [' ', o]) ++ [' '] by simp,
      rstrip_concat_ws _ (by decide),
      show T1 ++ [' ', o] = (T1 ++ [' ']) ++ [o] by simp,
      rstrip_concat_not_ws _ (op_not_ws ho)]
  rw [htake]
  rw [show applyToken root ⟨[], some T2, [], []⟩ none [([], [])] =
        seedFold root ⟨[], some T2, [], []⟩ [([], [])] from rfl,
    seedFold_single_tag]
  show selectLoop root (f + 1 + 1 + 1) ((T1 ++ [' ']) ++ [o]) false none
      ((findAll root [] (some T2) [] []).map fun m => (m, ([some m] : List (Option Path)))) = _
  -- step 2: scan the combinator
  rw [selectLoop_succ]
  rw [show ((T1 ++ [' ']) ++ [o]).isEmpty = false from isEmpty_append_cons _ _ _]
  simp only [Bool.false_eq_true, if_false]
  rw [show (T1 ++ [' ']) ++ [o] = T1 ++ [' ', o] by simp, scanOperator_single (by decide) ho,
    rstrip_concat_ws _ (by decide), rstrip_all_not_ws fun c hc => alnum_not_ws (h1.mem_alnum c hc)]
  -- step 3: extract and apply the token T1
  have hne3 : T1.isEmpty = false := by
    cases hT : T1 with
    | nil => exact absurd hT h1.1
    | cons a t => rfl
  rw [selectLoop_succ, hne3]
  simp only [Bool.false_eq_true, if_false, if_true,
    searchToken_all h1.1 fun c hc => alnum_tokenChar (h1.mem_alnum c hc),
    compileToken_tag h1, Nat.sub_self, List.take_zero, rstrip_nil, List.append_nil]
  cases happ : applyToken root ⟨[], some T1, [], []⟩ (some [o])
      ((findAll root [] (some T2) [] []).map fun m => (m, ([some m] : List (Option Path)))) with
  | error e => rfl
  | ok found =>
      show selectLoop root (f + 1) [] false (some [o]) found = _
      rw [selectLoop_succ]
      simp [anchorsOf, happ]

/-- A run of the loop on `T1 T2` (descendant form): seed with `T2`, then
apply the `T1` token under the default `' '` operator, then return
anchors. -/
theorem selectLoop_two_desc_run (root : Node) (f : Nat) {T1 T2 : Str}
    (h1 : ValidTag T1) (h2 : ValidTag T2) :
    selectLoop root (f + 1 + 1 + 1 + 1) (T1 ++ ' ' :: T2) true none [([], [])] =
      anchorsOf (applyToken root ⟨[], some T1, [], []⟩ (some [' '])
        ((findAll root [] (some T2) [] []).map fun m => (m, ([some m] : List (Option Path))))) := by
  have htok2 : ∀ d ∈ T2, tokenChar d = true :=
    fun d hd => alnum_tokenChar (h2.mem_alnum d hd)
  have hsearch : searchToken (T1 ++ ' ' :: T2) = some T2 :=
    searchToken_append (by decide) h2.1 htok2
  have hne1 : (T1 ++ ' ' :: T2).isEmpty = false := isEmpty_append_cons _ _ _
  rw [selectLoop_succ, hne1]
  simp only [Bool.false_eq_true, if_false, if_true, hsearch, compileToken_tag h2]
  have htake : rstrip ((T1 ++ ' ' :: T2).take ((T1 ++ ' ' :: T2).length - T2.length)) = T1 := by
    rw [show T1 ++ ' ' :: T2 = (T1 ++ [' ']) ++ T2 by simp, take_drop_suffix,
      rstrip_concat_ws _ (by decide),
      rstrip_all_not_ws fun c hc => alnum_not_ws (h1.mem_alnum c hc)]
  rw [htake]
  rw [show applyToken root ⟨[], some T2, [], []⟩ none [([], [])] =
        seedFold root ⟨[], some T2, [], []⟩ [([], [])] from rfl,
    seedFold_single_tag]
  show selectLoop root (f + 1 + 1 + 1) T1 false none
      ((findAll root [] (some T2) [] []).map fun m => (m, ([some m] : List (Option Path)))) = _
  -- step 2: no trailing combinator, operator defaults to ' '
  have hne3 : T1.isEmpty = false := by
    cases hT : T1 with
    | nil => exact absurd hT h1.1
    | cons a t => rfl
  rw [selectLoop_succ, hne3]
  simp only [Bool.false_eq_true, if_false]
  rw [scanOperator_default h1.mem_alnum]
  -- step 3: extract and apply the token T1
  rw [selectLoop_succ, hne3]
  simp only [Bool.false_eq_true, if_false, if_true,
    searchToken_all h1.1 fun c hc => alnum_tokenChar (h1.mem_alnum c hc),
    compileToken_tag h1, Nat.sub_self, List.take_zero, rstrip_nil, List.append_nil]
  cases happ : applyToken root ⟨[], some T1, [], []⟩ (some [' '])
      ((findAll root [] (some T2) [] []).map fun m => (m, ([some m] : List (Option Path)))) with
  | error e => rfl
  | ok found =>
      show selectLoop root (f + 1) [] false (some [' ']) found = _
      rw [selectLoop_succ]
      simp [anchorsOf, happ]

/-- Embeds `selectL` on a selector that is a single valid token. -/
theorem selectL_one_token (root : Node) {sel tok : Str} {td : TokData}
    (h0 : sel ≠ []) (h1 : searchToken sel = some tok)
    (h2 : rstrip (sel.take (sel.length - tok.length)) = [])
    (h3 : compileToken tok = .ok td) :
    selectL root sel = seedMatches root td [] := by
  rw [selectL, show 2 * sel.length + 2 = 2 * sel.length + 1 + 1 from rfl]
  exact selectLoop_one_run root _ h0 h1 h2 h3

/-- Embeds `selectL` on `T1 <op> T2`. -/
theorem selectL_two_op (root : Node) {T1 T2 : Str} {o : Char}
    (h1 : ValidTag T1) (h2 : ValidTag T2) (ho : isOpChar o = true) :
    selectL root (T1 ++ ' ' :: o :: ' ' :: T2) =
      anchorsOf (applyToken root ⟨[], some T1, [], []⟩ (some [o])
        ((findAll root [] (some T2) [] []).map fun m => (m, ([some m] : List (Option Path))))) := by
  rw [selectL]
  obtain ⟨f, hf⟩ : ∃ f, 2 * (T1 ++ ' ' :: o :: ' ' :: T2).length + 2 = f + 1 + 1 + 1 + 1 := by
    refine ⟨2 * (T1 ++ ' ' :: o :: ' ' :: T2).length - 2, ?_⟩
    simp only [List.length_append, List.length_cons]
    omega
  rw [hf]
  exact selectLoop_two_op_run root f h1 h2 ho

/-- Embeds `selectL` on `T1 T2` (descendant). -/
theorem selectL_two_desc (root : Node) {T1 T2 : Str}
    (h1 : ValidTag T1) (h2 : ValidTag T2) :
    selectL root (T1 ++ ' ' :: T2) =
      anchorsOf (applyToken root ⟨[], some T1, [], []⟩ (some [' '])
        ((findAll root [] (some T2) [] []).map fun m => (m, ([some m] : List (Option Path))))) := by
  rw [selectL]
  obtain ⟨f, hf⟩ : ∃ f, 2 * (T1 ++ ' ' :: T2).length + 2 = f + 1 + 1 + 1 + 1 := by
    refine ⟨2 * (T1 ++ ' ' :: T2).length - 2, ?_⟩
    simp only [List.length_append, List.length_cons]
    omega
  rw [hf]
  exact selectLoop_two_desc_run root f h1 h2

/-! ## Helper lemmas: the combinator steps on tag-only tokens -/

/-- The child (`>`) step on seed contexts of a tag-only token keeps
exactly the candidates whose nearest matching ancestor compares equal to
their parent, relocating each surviving context to the parent. -/
theorem stepChild_tags (root : Node) (T1 : Str) (L : List Path) :
    stepChild root ⟨[], some T1, [], []⟩ (L.map fun m => (m, ([some m] : List (Option Path)))) =
      .ok ((L.filter fun m =>
          pyEq root (some (findParent root m (some T1) [] [])) (parentOf m)).map
        fun m => (m, ([parentOf m] : List (Option Path)))) := by
  induction L with
  | nil => rfl
  | cons m L' ih =>
      simp only [List.map_cons, List.filter_cons]
      cases hcond : pyEq root (some (findParent root m (some T1) [] [])) (parentOf m) with
      | true =>
          have hcc : childCand root ⟨[], some T1, [], []⟩ (some m) = .ok (some (parentOf m)) := by
            show Except.ok (if pyEq root (some (findParent root m (some T1) [] []))
                (parentOf m) then some (parentOf m) else none) = _
            rw [hcond]
            rfl
          have hmc : mapCandsE (childCand root ⟨[], some T1, [], []⟩) [some m] =
              .ok [parentOf m] := by
            rw [mapCandsE, hcc, mapCandsE]
          rw [stepChild, hmc, ih]
          rfl
      | false =>
          have hcc : childCand root ⟨[], some T1, [], []⟩ (some m) = .ok none := by
            show Except.ok (if pyEq root (some (findParent root m (some T1) [] []))
                (parentOf m) then some (parentOf m) else none) = _
            rw [hcond]
            rfl
          have hmc : mapCandsE (childCand root ⟨[], some T1, [], []⟩) [some m] = .ok [] := by
            rw [mapCandsE, hcc, mapCandsE]
          rw [stepChild, hmc, ih]
          rfl

/-- The descendant (`' '`) step on seed contexts of a tag-only token keeps
exactly the candidates with some matching strict ancestor, without
relocating them. -/
theorem stepDescendant_tags (root : Node) (T1 : Str) (L : List Path) :
    stepDescendant root ⟨[], some T1, [], []⟩
        (L.map fun m => (m, ([some m] : List (Option Path)))) =
      .ok ((L.filter fun m =>
          truthyRes (some (findParent root m (some T1) [] []))).map
        fun m => (m, ([some m] : List (Option Path)))) := by
  induction L with
  | nil => rfl
  | cons m L' ih =>
      simp only [List.map_cons, List.filter_cons]
      cases hcond : truthyRes (some (findParent root m (some T1) [] [])) with
      | true =>
          have hcc : descCand root ⟨[], some T1, [], []⟩ (some m) = .ok (some (some m)) := by
            show Except.ok (if truthyRes (some (findParent root m (some T1) [] []))
                then some (some m) else none) = _
            rw [hcond]
            rfl
          have hmc : mapCandsE (descCand root ⟨[], some T1, [], []⟩) [some m] =
              .ok [some m] := by
            rw [mapCandsE, hcc, mapCandsE]
          rw [stepDescendant, hmc, ih]
          rfl
      | false =>
          have hcc : descCand root ⟨[], some T1, [], []⟩ (some m) = .ok none := by
            show Except.ok (if truthyRes (some (findParent root m (some T1) [] []))
                then some (some m) else none) = _
            rw [hcond]
            rfl
          have hmc : mapCandsE (descCand root ⟨[], some T1, [], []⟩) [some m] = .ok [] := by
            rw [mapCandsE, hcc, mapCandsE]
          rw [stepDescendant, hmc, ih]
          rfl

/-! ## Helper lemmas: paths of the subtree enumeration -/

theorem nodeAt_append (n : Node) (q r : Path) :
    nodeAt n (q ++ r) = (nodeAt n q).bind fun c => nodeAt c r := by
  induction q generalizing n with
  | nil => rfl
  | cons i q' ih =>
      cases n with
      | elem t a c ch =>
          show (match ch[i]? with
                | some child => nodeAt child (q' ++ r)
                | none => none) =
            Option.bind (match ch[i]? with
                | some child => nodeAt child q'
                | none => none) fun c => nodeAt c r
          cases hch : ch[i]? with
          | none => rfl
          | some child => simpa using ih child
      | text s => rfl
      | comment s => rfl

/-- A prefix of a dereferenceable path is dereferenceable. -/
theorem nodeAt_prefix_isSome {root : Node} {q : Path} (i : Nat)
    (h : (nodeAt root (q ++ [i])).isSome = true) : (nodeAt root q).isSome = true := by
  rw [nodeAt_append] at h
  cases hq : nodeAt root q with
  | none => rw [hq] at h; simp at h
  | some n => rfl

theorem parentOf_concat (q : Path) (i : Nat) : parentOf (q ++ [i]) = some q := by
  rw [parentOf]
  simp

/-- Every path produced by `childPaths ch i` starts with an index `≥ i`. -/
theorem childPaths_shape (ch : List Node) (i : Nat) :
    ∀ p ∈ childPaths ch i, ∃ j r, p = j :: r ∧ i ≤ j := by
  induction ch generalizing i with
  | nil => intro p hp; simp [childPaths] at hp
  | cons c rest ih =>
      intro p hp
      rw [childPaths] at hp
      rcases List.mem_cons.mp hp with h' | h'
      · exact ⟨i, [], h', Nat.le_refl i⟩
      rcases List.mem_append.mp h' with h'' | h''
      · rcases List.mem_map.mp h'' with ⟨r, hr, rfl⟩
        exact ⟨i, r, rfl, Nat.le_refl i⟩
      · rcases ih (i + 1) p h'' with ⟨j, r, rfl, hj⟩
        exact ⟨j, r, rfl, Nat.le_of_succ_le hj⟩

theorem subtreePaths_ne_nil (n : Node) : ∀ p ∈ subtreePaths n, p ≠ [] := by
  intro p hp
  cases n with
  | elem t a c ch =>
      rw [subtreePaths] at hp
      rcases childPaths_shape ch 0 p hp with ⟨j, r, rfl, _⟩
      simp
  | text s => simp [subtreePaths] at hp
  | comment s => simp [subtreePaths] at hp

mutual

/-- The document-order enumeration of subtree paths has no duplicates. -/
theorem subtreePaths_nodup (n : Node) : (subtreePaths n).Nodup := by
  cases n with
  | elem t a c ch => rw [subtreePaths]; exact childPaths_nodup ch 0
  | text s => exact List.nodup_nil
  | comment s => exact List.nodup_nil

theorem childPaths_nodup (ch : List Node) (i : Nat) : (childPaths ch i).Nodup := by
  cases ch with
  | nil => exact List.nodup_nil
  | cons c rest =>
      rw [childPaths]
      refine List.Nodup.cons ?_ (List.nodup_append.mpr ⟨?_, ?_, ?_⟩)
      · intro hmem
        rcases List.mem_append.mp hmem with h' | h'
        · rcases List.mem_map.mp h' with ⟨r, hr, heq⟩
          exact subtreePaths_ne_nil c r hr (by simpa using heq.symm)
        · rcases childPaths_shape rest (i + 1) _ h' with ⟨j, r, heq, hj⟩
          rw [List.cons.injEq] at heq
          omega
      · exact (subtreePaths_nodup c).map fun a b hab => by simpa using hab
      · exact childPaths_nodup rest (i + 1)
      · intro p hp hp'
        rcases List.mem_map.mp hp with ⟨r, hr, rfl⟩
        rcases childPaths_shape rest (i + 1) _ hp' with ⟨j, r', heq, hj⟩
        rw [List.cons.injEq] at heq
        omega

end

/-! ## Helper lemmas: `find_all` from the root -/

theorem findAll_base_nil (root : Node) (tag : Option Str) (ids classes : List Str) :
    findAll root [] tag ids classes =
      (subtreePaths root).filter fun p => matchesFilter tag ids classes (nodeAtD root p) := by
  rw [findAll]
  rw [show nodeAtD root [] = root from rfl]
  simp

theorem matchesFilter_tag_only (root : Node) (T : Str) (p : Path) :
    matchesFilter (some T) [] [] (nodeAtD root p) = isTagElem root T p := by
  rw [isTagElem, nodeAtD]
  cases hn : nodeAt root p with
  | none => rfl
  | some n => cases n <;> simp [matchesFilter]

/-- Members of a tag-only `find_all` from the root: nonempty paths that
dereference to an element node. -/
theorem findAll_tag_mem {root : Node} {T : Str} {m : Path}
    (hm : m ∈ findAll root [] (some T) [] []) :
    m ≠ [] ∧ (nodeAt root m).isSome = true := by
  rw [findAll_base_nil] at hm
  have hmem : m ∈ subtreePaths root := (List.mem_filter.mp hm).1
  have hmatch : matchesFilter (some T) [] [] (nodeAtD root m) = true :=
    (List.mem_filter.mp hm).2
  refine ⟨subtreePaths_ne_nil root m hmem, ?_⟩
  cases hn : nodeAt root m with
  | none =>
      rw [nodeAtD, hn] at hmatch
      simp [matchesFilter] at hmatch
  | some n => rfl

/-- For a candidate found by a tag-only seed, the Python comparison
`checker(el.findParent(...)) == el.parent` succeeding forces the
`findParent` search to have actually found an ancestor: the parent value
is a real node, and `None == <node>` is false. -/
theorem child_cond_implies_desc_cond (root : Node) (T1 T2 : Str) {m : Path}
    (hm : m ∈ findAll root [] (some T2) [] [])
    (hcond : pyEq root (some (findParent root m (some T1) [] [])) (parentOf m) = true) :
    truthyRes (some (findParent root m (some T1) [] [])) = true := by
  obtain ⟨hne, hsome⟩ := findAll_tag_mem hm
  obtain ⟨q, i, rfl⟩ : ∃ q i, m = q ++ [i] := by
    cases hrev : m.reverse with
    | nil => exact absurd (by simpa using congrArg List.reverse hrev) hne
    | cons j qrev =>
        refine ⟨qrev.reverse, j, ?_⟩
        have := congrArg List.reverse hrev
        simpa using this
  cases hfp : findParent root (q ++ [i]) (some T1) [] [] with
  | some fp => rfl
  | none =>
      exfalso
      rw [hfp, parentOf_concat] at hcond
      have hq : (nodeAt root q).isSome = true := nodeAt_prefix_isSome i hsome
      cases hqn : nodeAt root q with
      | none => rw [hqn] at hq; simp at hq
      | some pn =>
          rw [pyEq] at hcond
          rw [show refVal root none = none from rfl] at hcond
          rw [show refVal root (some q) = nodeAt root q from rfl, hqn] at hcond
          simp [beqON] at hcond

theorem map_fst_pair {β : Type} (l : List Path) (g : Path → β) :
    ((l.map fun m => (m, g m)).map fun c => c.1) = l := by
  induction l with
  | nil => rfl
  | cons a t ih => simp [ih]

/-! ## Evaluation examples: the embedding on concrete documents -/

example : select d1 ".a.b" = .ok [[0]] := rfl

example : select d2 "b + c" = .ok [[0]] := rfl

example : select d3 "li:nth-child(foo)" = .ok [[0]] := rfl

example : select d3 "li:nth-child(0)" = .ok [[0]] := rfl

example : select d3 "" = .ok [[]] := rfl

example : select d8 "li:nth-child(2n+1)" = .ok [[0,0],[0,2]] := rfl

example : select d8 "li:nth-child(odd)" = .ok [[0,0],[0,2]] := rfl

example : select d8 "li:nth-child(even)" = .ok [[0,1]] := rfl

example : select d8 "li:nth-child(2)" = .ok [[0,1]] := rfl

example : select d8 "li:first-child" = .ok [[0,0]] := rfl

example : select d8 "li:last-child" = .ok [[0,2]] := rfl

example : select d6 "div > p" = .ok [[0,0]] := rfl

example : select d6 "div p" = .ok [[0,0]] := rfl

example : select d6 "span > p" = .ok [] := rfl

example : select d6 "a ~ b" = .error .notImplemented := rfl

example : select d8 "li" = .ok [[0,0],[0,1],[0,2]] := rfl

example : select d8 "ul li" = .ok [[0,0],[0,1],[0,2]] := rfl

example : select d8 "li + li" = .ok [[0,0],[0,1],[0,2]] := rfl

example : select d1 "div#x" = .ok [] := rfl

example : select (Node.elem "[document]".data [] []
  [.elem "div".data [("id".data, "x".data)] [] []]) "div#x" = .ok [[0]] := rfl

example : select d1 "#a#b" = .error .multipleIds := rfl

example : select dspec "div#main p.y" = .ok [[0,1]] := rfl

example : select dspec "div > p:nth-child(1)" = .ok [[0,0]] := rfl

example : select dspec "div > p:nth-child(2)" = .ok [[0,1]] := rfl

example : select dws "li:nth-child(1)" = .ok [[0,1]] := rfl

example : select dws "li:nth-child(2)" = .ok [[0,3]] := rfl

example : select dws "li:first-child" = .ok [[0,1]] := rfl

example : select dws "li:last-child" = .ok [[0,3]] := rfl

example : select dattr "[href]" = .ok [[0]] := rfl

-- the token regex cannot put a tag and a bracket clause in one token:
-- "a[href=xy]" scans as token "[href=xy]" below a descendant token "a"
example : select dattr "a[href=xy]" = .ok [] := rfl

example : select dattr2 "div[href=xy]" = .ok [[0,0]] := rfl

example : select dattr2 "div[href=z]" = .ok [] := rfl

example : select dattr2 "div[href$=y]" = .ok [[0,0]] := rfl

/-! ## Claim C1 -/

/-- Claim C1 (refuted — the code uses OR, not AND, across the class
selectors of one token): `select(tree, ".a.b")` returns the `div` whose
class attribute holds only `a`.  The token compiles its class list to
`find_dict['class'] = partial(operator.contains, ['a', 'b'])`, and bs4
matches a multi-valued attribute when *any* of its values satisfies the
callable, so class `a` alone suffices — contradicting the claim that
every extracted class name must be present. -/
theorem claim_c1_multiclass_or_semantics :
    select docMultiClass ".a.b" = .ok [[0]] ∧
    nodeAt docMultiClass [0] = some (.elem "div".data [] ["a".data] []) :=
  ⟨rfl, rfl⟩

/-! ## Claim C2 -/

/-- Claim C2 (refuted — a candidate with no previous sibling survives the
`+` step): on a document whose only `c` element is a first child,
`select(tree, "b + c")` returns that `c`.  With no previous sibling,
`el.findPreviousSibling('b', {})` is `None`, the trivial checker returns
its argument `None`, and `None == el.previousSibling` compares `None`
with `None` — true — so the candidate survives (with `None` appended as
the new candidate) although no matching sibling exists at all. -/
theorem claim_c2_adjacent_none_survives :
    select docAdjacent "b + c" = .ok [[0]] ∧
    prevSiblingOf [0] = none ∧
    nodeAt docAdjacent [0] = some (.elem "c".data [] [] []) :=
  ⟨rfl, rfl, rfl⟩

/-! ## Claim C3 -/

/-- Claim C3 (refuted — the `nth-child expression error` branch is dead):
every part of `NTH_EXPR` (`((?P<coefficient>[0-9]+)?[nN])?[\-\+]?(?P<constant>[0-9]+)?`)
is optional, so `re.match` always succeeds (here: on `"foo"` it matches
the empty prefix with both groups absent, making the predicate constantly
true), and `select(tree, "li:nth-child(foo)")` returns the `li` instead
of failing with `InvalidNthExpression`. -/
theorem claim_c3_invalid_nth_no_error :
    select docSingleLi "li:nth-child(foo)" = .ok [[0]] ∧
    matchNthExpr "foo".data = some (none, none) :=
  ⟨rfl, rfl⟩

/-! ## Claim C4 -/

/-- Claim C4 (refuted for `B = 0` — `if constant:` treats a parsed `0` as
absent): the single `li` has structural index 1, yet
`select(tree, "li:nth-child(0)")` returns it: the constant group parses
to the integer `0`, which is falsy, so the code falls through to the
bare-`n` branch and returns `True` for every node instead of matching no
node. -/
theorem claim_c4_nth_zero_matches_all :
    select docSingleLi "li:nth-child(0)" = .ok [[0]] ∧
    nthIndexRef docSingleLi (some [0]) = 1 ∧
    matchNthExpr "0".data = some (none, some 0) :=
  ⟨rfl, rfl, rfl⟩

/-! ## Claim C9 -/

/-- Claim C9 (confirmed): for every tree, `select` with the empty selector
string skips the `while selector:` loop entirely and returns
`[entry[0] for entry in [(soup, [])]] = [soup]` — the one-element list
holding the root handle itself. -/
theorem claim_c9_empty_selector (root : Node) : select root "" = .ok [[]] := rfl

/-! ## Claim C5 -/

/-- Claim C5 (confirmed): for every tree and valid tag tokens `T1`, `T2`,
`select(tree, "T1 ~ T2")` fails with the `NotImplementedError` of the
`~` branch — the seed step for `T2` runs, then the `elif operator == '~'`
branch raises unconditionally, before any candidate is examined. -/
theorem claim_c5_general_sibling_error (root : Node) (T1 T2 : Str)
    (h1 : ValidTag T1) (h2 : ValidTag T2) :
    selectL root (T1 ++ ' ' :: '~' :: ' ' :: T2) = .error .notImplemented := by
  rw [selectL_two_op root h1 h2 (by decide)]
  rfl

/-- Witness for C5 at `select(tree, "a ~ b")` on a concrete tree. -/
theorem claim_c5_witness :
    ValidTag "a".data ∧ ValidTag "b".data ∧
      selectL docSingleLi ("a".data ++ ' ' :: '~' :: ' ' :: "b".data) =
        .error .notImplemented :=
  ⟨by decide, by decide,
    claim_c5_general_sibling_error docSingleLi _ _ (by decide) (by decide)⟩

/-! ## Claim C6 -/

/-- Claim C6 (confirmed): for every tree and valid tag names `T1`, `T2`,
every node returned by `select(tree, "T1 > T2")` is also returned by
`select(tree, "T1 T2")`.  Both runs seed with the same `T2` matches; a
candidate surviving the child step satisfies
`checker(el.findParent(T1)) == el.parent` with a real parent node on the
right, which forces `findParent` to have found an ancestor — exactly the
truthiness condition of the descendant step — and both steps preserve
the anchors they keep. -/
theorem claim_c6_child_subset_descendant (root : Node) (T1 T2 : Str)
    (h1 : ValidTag T1) (h2 : ValidTag T2) :
    ∃ l₁ l₂, selectL root (T1 ++ ' ' :: '>' :: ' ' :: T2) = .ok l₁ ∧
      selectL root (T1 ++ ' ' :: T2) = .ok l₂ ∧ l₁ ⊆ l₂ := by
  rw [selectL_two_op root h1 h2 (by decide), selectL_two_desc root h1 h2]
  rw [show applyToken root ⟨[], some T1, [], []⟩ (some ['>'])
      ((findAll root [] (some T2) [] []).map fun m => (m, ([some m] : List (Option Path)))) =
    stepChild root ⟨[], some T1, [], []⟩
      ((findAll root [] (some T2) [] []).map fun m => (m, [some m])) from rfl]
  rw [show applyToken root ⟨[], some T1, [], []⟩ (some [' '])
      ((findAll root [] (some T2) [] []).map fun m => (m, ([some m] : List (Option Path)))) =
    stepDescendant root ⟨[], some T1, [], []⟩
      ((findAll root [] (some T2) [] []).map fun m => (m, [some m])) from rfl]
  rw [stepChild_tags, stepDescendant_tags]
  refine ⟨_, _, rfl, rfl, ?_⟩
  rw [map_fst_pair _ (fun m => ([parentOf m] : List (Option Path))),
    map_fst_pair _ (fun m => ([some m] : List (Option Path)))]
  intro p hp
  rw [List.mem_filter] at hp ⊢
  exact ⟨hp.1, child_cond_implies_desc_cond root T1 T2 hp.1 hp.2⟩

/-- Witness for C6 at `"div > p"` versus `"div p"` on a concrete tree. -/
theorem claim_c6_witness :
    ValidTag "div".data ∧ ValidTag "p".data ∧
      (∃ l₁ l₂, selectL docNested ("div".data ++ ' ' :: '>' :: ' ' :: "p".data) = .ok l₁ ∧
        selectL docNested ("div".data ++ ' ' :: "p".data) = .ok l₂ ∧ l₁ ⊆ l₂) :=
  ⟨by decide, by decide,
    claim_c6_child_subset_descendant docNested _ _ (by decide) (by decide)⟩

/-! ## Claim C7 -/

/-- Claim C7 (confirmed): for every tree and every single-tag selector `T`,
`select` returns exactly the element nodes whose tag is `T`: the result
is the document-order enumeration of subtree paths filtered to elements
tagged `T`, and it contains no duplicates. -/
theorem claim_c7_single_tag (root : Node) (T : Str) (h : ValidTag T) :
    selectL root T = .ok ((subtreePaths root).filter (isTagElem root T)) ∧
      ((subtreePaths root).filter (isTagElem root T)).Nodup := by
  constructor
  · rw [selectL_one_token root h.1
        (searchToken_all h.1 fun c hc => alnum_tokenChar (h.mem_alnum c hc))
        (by rw [Nat.sub_self, List.take_zero]; rfl)
        (compileToken_tag h),
      seedMatches_trivial, findAll_base_nil]
    congr 1
    exact List.filter_congr fun p hp => matchesFilter_tag_only root T p
  · exact (subtreePaths_nodup root).filter _

/-- Witness for C7 at `select(tree, "li")` on a concrete tree. -/
theorem claim_c7_witness :
    ValidTag "li".data ∧
      (selectL docSingleLi "li".data =
          .ok ((subtreePaths docSingleLi).filter (isTagElem docSingleLi "li".data)) ∧
        ((subtreePaths docSingleLi).filter (isTagElem docSingleLi "li".data)).Nodup) :=
  ⟨by decide, claim_c7_single_tag docSingleLi _ (by decide)⟩

/-! ## Claim C8 -/

/-- The `An+B` predicate with `A = 2, B = 1` evaluates to
`(index - 1) % 2 == 0` at every reference — literally the same formula as
the `odd` branch. -/
theorem is_nth_2n1_eq_odd (root : Node) (el : Option Path) :
    is_nth_child root el "2n+1".data = is_nth_child root el "odd".data := rfl

/-- Seeding with a single `nth-child` checker is invariant under
pointwise-equal `nth` arguments. -/
theorem seedMatches_single_nth_congr (root : Node) (tag : Option Str) (ids cls : List Str)
    (a1 a2 : Str) (h : ∀ el, is_nth_child root el a1 = is_nth_child root el a2) :
    seedMatches root ⟨[.nthFn a1], tag, ids, cls⟩ [] =
      seedMatches root ⟨[.nthFn a2], tag, ids, cls⟩ [] := by
  rw [seedMatches, seedMatches]
  refine filterE_congr fun p hp => ?_
  have hrc : runChecker root [CheckFn.nthFn a1] (some p) =
      runChecker root [CheckFn.nthFn a2] (some p) := by
    simp only [runChecker]
    rw [show evalFn root (CheckFn.nthFn a1) (some p) = is_nth_child root (some p) a1 from rfl,
      show evalFn root (CheckFn.nthFn a2) (some p) = is_nth_child root (some p) a2 from rfl,
      h (some p)]
  rw [hrc]

/-- Claim C8 (confirmed): for every tree,
`select(tree, "li:nth-child(2n+1)")` and `select(tree, "li:nth-child(odd)")`
return the same list: both selectors compile to the tag `li` with one
`nth-child` checker, and the `2n+1` formula `(i - 1) % 2 == 0` is the
`odd` formula at every structural index. -/
theorem claim_c8_an_b_equals_odd (root : Node) :
    select root "li:nth-child(2n+1)" = select root "li:nth-child(odd)" := by
  have e1 : selectL root "li:nth-child(2n+1)".data =
      seedMatches root ⟨[CheckFn.nthFn "2n+1".data], some "li".data, [], []⟩ [] :=
    selectL_one_token root (by decide) rfl rfl rfl
  have e2 : selectL root "li:nth-child(odd)".data =
      seedMatches root ⟨[CheckFn.nthFn "odd".data], some "li".data, [], []⟩ [] :=
    selectL_one_token root (by decide) rfl rfl rfl
  show selectL root "li:nth-child(2n+1)".data = selectL root "li:nth-child(odd)".data
  rw [e1, e2]
  exact seedMatches_single_nth_congr root _ _ _ _ _ fun el => is_nth_2n1_eq_odd root el

/-! ## Claim C10 -/

/-- Embeds `NTH_EXPR` on `"<digits>nσ<rest>"` with `σ` a sign: the sign sits in
the group-free `[\-\+]?` part, so the parse is the same for `-` and `+`:
coefficient from the digits, constant from the digit run after the sign. -/
theorem matchNthExpr_coeff_sign (d e : Str) (σ : Char) (hd : d ≠ [])
    (hdig : ∀ c ∈ d, c.isDigit = true) (hσ : σ = '-' ∨ σ = '+') :
    matchNthExpr (d ++ 'n' :: σ :: e) =
      some (some (digitsToNat d),
        if (e.takeWhile Char.isDigit).isEmpty then none
        else some (digitsToNat (e.takeWhile Char.isDigit))) := by
  have h1 : (d ++ 'n' :: σ :: e).takeWhile Char.isDigit = d :=
    takeWhile_append_stop _ hdig (by decide)
  have hde : d.isEmpty = false := by
    cases d with
    | nil => exact absurd rfl hd
    | cons a t => rfl
  rcases hσ with rfl | rfl <;> simp [matchNthExpr, h1, hde]

/-- Claim C10 (confirmed): the sign before the constant is ignored: the
`nth-child` predicate of `"An-B"` evaluates exactly like that of
`"An+B"` on every node (the `-` never negates `B`), for every nonempty
digit string `A` and arbitrary tail `B`. -/
theorem claim_c10_nth_sign_ignored (root : Node) (el : Option Path) (d e : Str)
    (hd : d ≠ []) (hdig : d.all Char.isDigit = true) :
    is_nth_child root el (d ++ 'n' :: '-' :: e) =
      is_nth_child root el (d ++ 'n' :: '+' :: e) := by
  have hdig' : ∀ c ∈ d, c.isDigit = true := fun c hc => List.all_eq_true.mp hdig c hc
  obtain ⟨c0, d', rfl⟩ : ∃ c0 d', d = c0 :: d' := by
    cases d with
    | nil => exact absurd rfl hd
    | cons a t => exact ⟨a, t, rfl⟩
  have hc0 : c0.isDigit = true := hdig' c0 (by simp)
  have hhead : ∀ (σ : Char) (r : Str) (w : Str), w.headD ' ' = 'o' ∨ w.headD ' ' = 'e' →
      (((c0 :: d') ++ 'n' :: σ :: r) == w) = false := by
    intro σ r w hw
    refine beq_eq_false_iff_ne.mpr fun hcontra => ?_
    have hc : c0 = w.headD ' ' := by
      have := congrArg (fun l => l.headD ' ') hcontra
      simpa using this
    rcases hw with hw | hw <;> rw [hw] at hc <;> subst hc <;>
      exact absurd hc0 (by decide)
  simp only [is_nth_child,
    hhead '-' e "odd".data (Or.inl rfl), hhead '+' e "odd".data (Or.inl rfl),
    hhead '-' e "even".data (Or.inr rfl), hhead '+' e "even".data (Or.inr rfl),
    matchNthExpr_coeff_sign (c0 :: d') e '-' hd hdig' (Or.inl rfl),
    matchNthExpr_coeff_sign (c0 :: d') e '+' hd hdig' (Or.inr rfl),
    Bool.false_eq_true, if_false]

/-- Witness for C10 at `nth-child("2n-1")` versus `nth-child("2n+1")` on
a concrete node. -/
theorem claim_c10_witness :
    ['2'] ≠ ([] : Str) ∧ ['2'].all Char.isDigit = true ∧
      is_nth_child docSingleLi (some [0]) (['2'] ++ 'n' :: '-' :: ['1']) =
        is_nth_child docSingleLi (some [0]) (['2'] ++ 'n' :: '+' :: ['1']) :=
  ⟨by decide, by decide,
    claim_c10_nth_sign_ignored docSingleLi (some [0]) ['2'] ['1'] (by decide) (by decide)⟩

end SoupSelect
